import Mathlib

/-!
Definitions: the embedded engine, the registry fragment, and the concrete
states and runs used by the claim theorems below.
-/
mutual
/-- A JS value, as produced and consumed by the algorithm modules: numbers,
strings, booleans, `null`, `undefined`, arrays and plain objects.  Arrays and
object field lists are mutual inductives (rather than `List`-nested ones) so
that recursion over values stays structural and kernel-evaluable. -/
inductive JSVal where
  | num : ℚ → JSVal
  | str : String → JSVal
  | bool : Bool → JSVal
  | null : JSVal
  | undef : JSVal
  | arr : JSValList → JSVal
  | obj : JSFields → JSVal

/-- The elements of a JS array value. -/
inductive JSValList where
  | nil : JSValList
  | cons : JSVal → JSValList → JSValList

/-- The fields of a JS object value, in insertion order. -/
inductive JSFields where
  | nil : JSFields
  | cons : String → JSVal → JSFields → JSFields
end
/-- Package a Lean list of values as a JS array value's element list. -/
def JSValList.ofList : List JSVal → JSValList
  | [] => .nil
  | x :: xs => .cons x (JSValList.ofList xs)
/-- JS truthiness of a value (`if (v)`).  `NaN` does not arise in the embedded
fragment, so a number is falsy exactly when it is `0`. -/
def JSVal.truthy : JSVal → Bool
  | .num q => decide (q ≠ 0)
  | .str s => decide (s ≠ "")
  | .bool b => b
  | .null => false
  | .undef => false
  | .arr _ => true
  | .obj _ => true
/-- A registered algorithm: invoked with the spread `params`, it either returns
a value or throws an error carrying a message. -/
abbrev AlgFun := List JSVal → Except String JSVal
/-- The `algorithmMap` of `executeAlgorithm`: category name to category table,
method name to member.  Non-function members fail the `typeof === 'function'`
check exactly like absent ones, so a category table maps a method name to
`Option AlgFun` directly. -/
abbrev Registry := String → Option (String → Option AlgFun)
/-- Rendering of a JS number for `JSON.stringify` and template strings.  JS
prints integral doubles without a decimal point; non-integral rendering is
abstracted (no theorem depends on it). -/
def qToString (q : ℚ) : String :=
  if q.den = 1 then toString q.num else toString q.num ++ "/" ++ toString q.den
mutual
/-- `JSON.stringify` on an embedded value.  A top-level `undefined` does not
arise (params are arrays); inside an array `undefined` serializes as `null`.
String escaping is abstracted (no embedded string contains a quote). -/
def jsonStringify : JSVal → String
  | .num q => qToString q
  | .str s => "\"" ++ s ++ "\""
  | .bool b => if b then "true" else "false"
  | .null => "null"
  | .undef => "null"
  | .arr l => "[" ++ jsonStringifyList l ++ "]"
  | .obj l => "\x7b" ++ jsonStringifyFields l ++ "\x7d"

/-- Comma-separated serialization of array elements. -/
def jsonStringifyList : JSValList → String
  | .nil => ""
  | .cons x .nil => jsonStringify x
  | .cons x xs => jsonStringify x ++ "," ++ jsonStringifyList xs

/-- Comma-separated serialization of object fields. -/
def jsonStringifyFields : JSFields → String
  | .nil => ""
  | .cons k v .nil => "\"" ++ k ++ "\":" ++ jsonStringify v
  | .cons k v xs =>
      "\"" ++ k ++ "\":" ++ jsonStringify v ++ "," ++ jsonStringifyFields xs
end
/-- `generateCacheKey` (lines 1785-1792): the path concatenated with the JSON
serialization of the params array.  Embedded values are always serializable
(no cycles, no functions), so the `catch` fallback key is dead code here. -/
def generateCacheKey (algorithm : String) (params : List JSVal) : String :=
  algorithm ++ "_" ++ jsonStringify (.arr (JSValList.ofList params))
/-- One cache entry, as stored by `setCachedResult`. -/
structure CacheEntry where
  result : JSVal
  timestamp : ℤ
  expires : ℤ
/-- `Map.get`: the value at the first (unique) occurrence of the key. -/
def jsGet {α : Type} : List (String × α) → String → Option α
  | [], _ => none
  | (k', v') :: rest, k => if k' = k then some v' else jsGet rest k
/-- `Map.set`: update the entry in place if the key is present (keeping its
position), otherwise append. -/
def jsSet {α : Type} : List (String × α) → String → α → List (String × α)
  | [], k, v => [(k, v)]
  | (k', v') :: rest, k, v =>
      if k' = k then (k, v) :: rest else (k', v') :: jsSet rest k v
/-- `Map.delete`: remove the entry with the given key, if present. -/
def jsDelete {α : Type} : List (String × α) → String → List (String × α)
  | [], _ => []
  | (k', v') :: rest, k => if k' = k then rest else (k', v') :: jsDelete rest k
/-- The cache `Map` of the hook (`cacheRef.current`), in insertion order. -/
abbrev CacheMap := List (String × CacheEntry)
/-- Per-algorithm statistics (`metrics.algorithmStats[path]`). -/
structure AlgStats where
  executions : ℕ := 0
  totalTime : ℚ := 0
  averageTime : ℚ := 0
  errors : ℕ := 0
/-- The metrics record (`metricsRef.current`). -/
structure Metrics where
  totalExecutions : ℕ := 0
  cacheHits : ℕ := 0
  cacheMisses : ℕ := 0
  averageExecutionTime : ℚ := 0
  algorithmStats : List (String × AlgStats) := []
/-- One record of `executionHistory`. -/
structure HistoryRecord where
  algorithm : String
  params : ℕ
  executionTime : ℚ
  timestamp : ℤ
  success : Bool
  error : Option String := none
/-- The mutable state owned by one `useAlgorithms` instance. -/
structure EngineState where
  cache : CacheMap := []
  metrics : Metrics := {}
  history : List HistoryRecord := []
  isLoading : Bool := false
  errorMsg : Option String := none
  lastResult : Option JSVal := none
/-- The state right after the hook is initialised. -/
def initialState : EngineState := {}
/-- Construction options of the hook (lines 1757-1764), with the source's
defaults. -/
structure EngineConfig where
  enableCache : Bool := true
  cacheTTL : ℤ := 30 * 60 * 1000
  enableMetrics : Bool := true
  maxCacheSize : ℕ := 100
/-- Per-call options of `executeAlgorithm` (lines 1892-1897), with the
source's defaults.  `validateInput` is destructured by the source but never
read. -/
structure ExecOptions where
  skipCache : Bool := false
  timeout : ℤ := 30000
  validateInput : Bool := true
  transform : Option (JSVal → JSVal) := none
/-- The default configuration and the default call options. -/
def cfgDefault : EngineConfig := {}
/-- Default `options` argument of `executeAlgorithm`. -/
def optsDefault : ExecOptions := {}
/-- `cleanExpiredCache` (lines 1797-1806): drop every entry with
`entry.expires < now`. -/
def cleanExpiredCache (cache : CacheMap) (now : ℤ) : CacheMap :=
  cache.filter (fun e => decide (now ≤ e.2.expires))
/-- `getCachedResult` (lines 1811-1828).  Returns the updated cache and
metrics together with the looked-up value.  Note that with caching disabled
nothing is counted, a fresh entry counts a hit, and an expired or absent entry
deletes the stale entry (if any) and counts a miss. -/
def getCachedResult (cfg : EngineConfig) (cache : CacheMap) (metrics : Metrics)
    (cacheKey : String) (now : ℤ) : CacheMap × Metrics × Option JSVal :=
  if !cfg.enableCache then (cache, metrics, none)
  else
    match jsGet cache cacheKey with
    | some entry =>
        if now < entry.expires then
          (cache, { metrics with cacheHits := metrics.cacheHits + 1 }, some entry.result)
        else
          (jsDelete cache cacheKey,
           { metrics with cacheMisses := metrics.cacheMisses + 1 }, none)
    | none =>
        (cache, { metrics with cacheMisses := metrics.cacheMisses + 1 }, none)
/-- Stable insertion of an entry into a list sorted by ascending timestamp;
an entry with an equal timestamp goes after the existing ones. -/
def insertByTimestamp (e : String × CacheEntry) : CacheMap → CacheMap
  | [] => [e]
  | x :: xs =>
      if x.2.timestamp ≤ e.2.timestamp then x :: insertByTimestamp e xs
      else e :: x :: xs
/-- `entries.sort((a, b) => a[1].timestamp - b[1].timestamp)`:
`Array.prototype.sort` is stable (ES2019), and a stable sort by timestamp has
a unique result, so a stable insertion sort models it exactly. -/
def sortByTimestamp : CacheMap → CacheMap
  | [] => []
  | x :: xs => insertByTimestamp x (sortByTimestamp xs)
/-- The bulk-eviction count `Math.floor(maxCacheSize * 0.3)`.  Exact rational
arithmetic is used in place of binary floating point; for every size where the
two differ at all they differ below the floor threshold, and all theorems only
use that the count is `0` for sizes `≤ 3` and positive for sizes `≥ 4`, which
holds for the float computation as well. -/
def evictionCount (maxCacheSize : ℕ) : ℕ := 3 * maxCacheSize / 10
/-- `setCachedResult` (lines 1833-1854): when the store is full, evict the
oldest 30% of entries by insertion timestamp, then insert the new entry with
`expires = now + cacheTTL`. -/
def setCachedResult (cfg : EngineConfig) (cache : CacheMap) (cacheKey : String)
    (result : JSVal) (now : ℤ) : CacheMap :=
  if !cfg.enableCache then cache
  else
    let cache1 :=
      if cfg.maxCacheSize ≤ cache.length then
        let entries := sortByTimestamp cache
        (entries.take (evictionCount cfg.maxCacheSize)).foldl
          (fun c e => jsDelete c e.1) cache
      else cache
    jsSet cache1 cacheKey
      { result := result, timestamp := now, expires := now + cfg.cacheTTL }
/-- `updateMetrics` (lines 1859-1886).  With metrics disabled, or for a call
served from cache (`fromCache = true`), nothing changes.  Otherwise the total
count, the incremental rolling average and the per-algorithm statistics are
updated; the per-algorithm record is created with zeroed fields on first use. -/
def updateMetrics (cfg : EngineConfig) (metrics : Metrics) (algorithm : String)
    (executionTime : ℚ) (fromCache : Bool) : Metrics :=
  if !cfg.enableMetrics then metrics
  else if fromCache then metrics
  else
    let n := metrics.totalExecutions + 1
    let total := metrics.averageExecutionTime * ((n : ℚ) - 1)
    let newAvg := (total + executionTime) / (n : ℚ)
    let prev := (jsGet metrics.algorithmStats algorithm).getD {}
    let executions := prev.executions + 1
    let totalTime := prev.totalTime + executionTime
    { metrics with
      totalExecutions := n
      averageExecutionTime := newAvg
      algorithmStats :=
        jsSet metrics.algorithmStats algorithm
          { executions := executions
            totalTime := totalTime
            averageTime := totalTime / (executions : ℚ)
            errors := prev.errors } }
/-- `[...prev.slice(-19), record]` (lines 1957-1963 and 1982-1989): keep the
last 19 records and append the new one. -/
def historyAppendJS (prev : List HistoryRecord) (record : HistoryRecord) :
    List HistoryRecord :=
  prev.drop (prev.length - 19) ++ [record]
/-- `const [category, method] = algorithmPath.split('.')` : the segment before
the first dot, and (when a dot exists) the segment between the first and the
second dot. -/
def breakDot : List Char → List Char × Option (List Char)
  | [] => ([], none)
  | c :: cs =>
      if c = '.' then ([], some cs)
      else
        let r := breakDot cs
        (c :: r.1, r.2)
/-- Destructure an algorithm path into `category` and `method`. -/
def splitPath (path : String) : String × Option String :=
  match breakDot path.data with
  | (cat, none) => (String.mk cat, none)
  | (cat, some rest) => (String.mk cat, some (String.mk (breakDot rest).1))
/-- Registry resolution as performed inline by `executeAlgorithm`
(lines 1918-1935): look up the category, then the method.  A falsy `method`
(no dot, or an empty second segment) selects the category object itself, which
is never a function and therefore fails the `typeof` check; this is collapsed
into `none`. -/
def resolveAlgorithm (reg : Registry) (path : String) : Option AlgFun :=
  match reg (splitPath path).1 with
  | none => none
  | some cat =>
      match (splitPath path).2 with
      | some m => if m = "" then none else cat m
      | none => none
/-- The message of the error thrown when resolution fails: the category
message when the category is absent, the algorithm message otherwise. -/
def lookupFailureMessage (reg : Registry) (path : String) : String :=
  match reg (splitPath path).1 with
  | none => "Categoría de algoritmo no encontrada: " ++ (splitPath path).1
  | some _ => "Algoritmo no encontrado: " ++ path
/-- The `catch` block of `executeAlgorithm` (lines 1973-1997): increment the
per-algorithm error counter only when metrics are enabled and a statistics
record for the path already exists, append a failure history record carrying
the error message, store the error, stop loading, and re-raise. -/
def failExit (cfg : EngineConfig) (st : EngineState) (algorithmPath : String)
    (paramCount : ℕ) (executionTime : ℚ) (now : ℤ) (msg : String) :
    EngineState × Except String JSVal :=
  let metrics :=
    if cfg.enableMetrics then
      match jsGet st.metrics.algorithmStats algorithmPath with
      | some s =>
          { st.metrics with
            algorithmStats :=
              jsSet st.metrics.algorithmStats algorithmPath
                { s with errors := s.errors + 1 } }
      | none => st.metrics
    else st.metrics
  ({ st with
      metrics := metrics
      history :=
        historyAppendJS st.history
          { algorithm := algorithmPath, params := paramCount
            executionTime := executionTime, timestamp := now
            success := false, error := some msg }
      errorMsg := some msg
      isLoading := false },
   .error msg)
/-- The body of the `try` block after the cache check: resolve, invoke,
transform, update metrics, write the cache, append the success history record
and return (lines 1918-1971); any throw lands in `failExit`. -/
def invokePhase (cfg : EngineConfig) (reg : Registry) (st : EngineState)
    (algorithmPath : String) (params : List JSVal) (opts : ExecOptions)
    (now : ℤ) (executionTime : ℚ) (cacheKey : String) :
    EngineState × Except String JSVal :=
  match resolveAlgorithm reg algorithmPath with
  | none =>
      failExit cfg st algorithmPath params.length executionTime now
        (lookupFailureMessage reg algorithmPath)
  | some algorithm =>
      match algorithm params with
      | .error msg =>
          failExit cfg st algorithmPath params.length executionTime now msg
      | .ok result =>
          let finalResult :=
            match opts.transform with
            | some t => t result
            | none => result
          let metrics := updateMetrics cfg st.metrics algorithmPath executionTime false
          let cache := setCachedResult cfg st.cache cacheKey finalResult now
          let history :=
            historyAppendJS st.history
              { algorithm := algorithmPath, params := params.length
                executionTime := executionTime, timestamp := now
                success := true, error := none }
          ({ st with
              cache := cache, metrics := metrics, history := history
              lastResult := some finalResult, isLoading := false },
           .ok finalResult)
/-- `executeAlgorithm` (lines 1891-2009).  `now` is the `Date.now()` reading
during the call and `executionTime` the measured `performance.now()` duration
of whichever path completes.  Note the cache check: a cached FALSY value is
returned by `getCachedResult` (and counted as a hit) but fails the
`if (cachedResult)` test, so execution falls through to a fresh invocation. -/
def executeAlgorithm (cfg : EngineConfig) (reg : Registry) (st : EngineState)
    (algorithmPath : String) (params : List JSVal) (opts : ExecOptions)
    (now : ℤ) (executionTime : ℚ) : EngineState × Except String JSVal :=
  let st1 : EngineState := { st with isLoading := true, errorMsg := none }
  let cacheKey := generateCacheKey algorithmPath params
  let check : CacheMap × Metrics × Option JSVal :=
    if opts.skipCache then (st1.cache, st1.metrics, none)
    else getCachedResult cfg st1.cache st1.metrics cacheKey now
  let st2 : EngineState := { st1 with cache := check.1, metrics := check.2.1 }
  match check.2.2 with
  | some v =>
      if v.truthy then
        ({ st2 with
            metrics := updateMetrics cfg st2.metrics algorithmPath 0 true
            lastResult := some v, isLoading := false },
         .ok v)
      else invokePhase cfg reg st2 algorithmPath params opts now executionTime cacheKey
  | none => invokePhase cfg reg st2 algorithmPath params opts now executionTime cacheKey
/-- JS division of the natural-number counters, as used in the
`cacheHitRatio` computation: `none` models the non-finite result (`NaN`)
produced when the denominator is `0`. -/
def jsDivNat (a b : ℕ) : Option ℚ := if b = 0 then none else some ((a : ℚ) / (b : ℚ))
/-- The snapshot returned by `getMetrics`. -/
structure MetricsView where
  totalExecutions : ℕ
  cacheHits : ℕ
  cacheMisses : ℕ
  averageExecutionTime : ℚ
  algorithmStats : List (String × AlgStats)
  cacheSize : ℕ
  cacheHitRatio : Option ℚ
/-- `getMetrics` (lines 2119-2128): lazily clean the expired cache entries,
then snapshot the metrics.  The hit-ratio guard tests `totalExecutions`, not
`cacheHits + cacheMisses`. -/
def getMetrics (st : EngineState) (now : ℤ) : EngineState × MetricsView :=
  let cache := cleanExpiredCache st.cache now
  ({ st with cache := cache },
   { totalExecutions := st.metrics.totalExecutions
     cacheHits := st.metrics.cacheHits
     cacheMisses := st.metrics.cacheMisses
     averageExecutionTime := st.metrics.averageExecutionTime
     algorithmStats := st.metrics.algorithmStats
     cacheSize := cache.length
     cacheHitRatio :=
       if 0 < st.metrics.totalExecutions then
         jsDivNat st.metrics.cacheHits
           (st.metrics.cacheHits + st.metrics.cacheMisses)
       else some 0 })
/-- `clearCache` (lines 2110-2114): empty the store and reset the hit/miss
counters. -/
def clearCache (st : EngineState) : EngineState :=
  { st with
      cache := []
      metrics := { st.metrics with cacheHits := 0, cacheMisses := 0 } }
/-- `resetMetrics` (lines 2149-2158): zero all counters and clear the
history. -/
def resetMetrics (st : EngineState) : EngineState :=
  { st with metrics := {}, history := [] }
/-- The trial-division loop of `isPrime`
(`for (let i = 3; i * i <= n; i += 2)`).  The fuel only makes the recursion
structural; `n` iterations are more than enough since `i` grows by `2` while
`i * i ≤ n` forces `i ≤ n`. -/
def isPrimeTrial : ℕ → ℕ → ℕ → Bool
  | 0, _, _ => true
  | fuel + 1, n, i =>
      if i * i ≤ n then
        if n % i = 0 then false else isPrimeTrial fuel n (i + 2)
      else true
/-- `isPrime` (cryptography.js lines 78-87). -/
def isPrimeJS (n : ℕ) : Bool :=
  if n < 2 then false
  else if n = 2 then true
  else if n % 2 = 0 then false
  else isPrimeTrial n n 3
/-- `extendedGCD` (cryptography.js lines 27-37), fuelled: returns
`(gcd, x, y)`.  Each recursive call replaces `b` by `a % b < b`, so fuel
`b + 1` always suffices. -/
def extendedGCD : ℕ → ℕ → ℕ → ℕ × ℤ × ℤ
  | 0, a, _ => (a, 1, 0)
  | fuel + 1, a, b =>
      if b = 0 then (a, 1, 0)
      else
        let result := extendedGCD fuel b (a % b)
        let x := result.2.2
        let y := result.2.1 - ((a / b : ℕ) : ℤ) * result.2.2
        (result.1, x, y)
/-- `modularInverse` (cryptography.js lines 43-52).  JS `%` on a possibly
negative left operand is the truncated remainder, `Int.tmod`. -/
def modularInverseJS (a m : ℕ) : Except String ℤ :=
  let result := extendedGCD (m + 1) a m
  if result.1 ≠ 1 then
    .error ("No existe inverso modular de " ++ toString a ++ " módulo " ++ toString m)
  else
    .ok (((result.2.1.tmod (m : ℤ)) + (m : ℤ)).tmod (m : ℤ))
/-- The registry member `cryptography.isPrime`. -/
def isPrimeMember : AlgFun := fun args =>
  match args with
  | [JSVal.num q] =>
      if q.den = 1 ∧ 0 ≤ q.num then .ok (JSVal.bool (isPrimeJS q.num.toNat))
      else .error "model: argument outside the embedded domain"
  | _ => .error "model: argument outside the embedded domain"
/-- The registry member `cryptography.modularInverse`. -/
def modularInverseMember : AlgFun := fun args =>
  match args with
  | [JSVal.num a, JSVal.num m] =>
      if a.den = 1 ∧ m.den = 1 ∧ 0 ≤ a.num ∧ 0 ≤ m.num then
        match modularInverseJS a.num.toNat m.num.toNat with
        | .ok x => .ok (JSVal.num (x : ℚ))
        | .error e => .error e
      else .error "model: argument outside the embedded domain"
  | _ => .error "model: argument outside the embedded domain"
/-- The embedded members of the `cryptography` category table. -/
def cryptographyFragment : String → Option AlgFun := fun m =>
  if m = "isPrime" then some isPrimeMember
  else if m = "modularInverse" then some modularInverseMember
  else none
/-- The embedded fragment of `algorithmMap` (lines 1919-1925). -/
def registryFragment : Registry := fun c =>
  if c = "cryptography" then some cryptographyFragment else none
/-- C1 run, first call: `cryptography.isPrime(4)` returns `false`, is executed
and cached. -/
def c1FirstCall : EngineState × Except String JSVal :=
  executeAlgorithm cfgDefault registryFragment initialState
    "cryptography.isPrime" [JSVal.num 4] optsDefault 0 1
/-- C1 run, second call: same path, deep-equal params, 1 ms later (well inside
the 30-minute TTL window). -/
def c1SecondCall : EngineState × Except String JSVal :=
  executeAlgorithm cfgDefault registryFragment c1FirstCall.1
    "cryptography.isPrime" [JSVal.num 4] optsDefault 1 1
/-- C2 run, first call: `cryptography.isPrime(5)` executes and caches `true`. -/
def c2FirstCall : EngineState × Except String JSVal :=
  executeAlgorithm cfgDefault registryFragment initialState
    "cryptography.isPrime" [JSVal.num 5] optsDefault 0 2
/-- C2 run, second call: same path and params 5 ms later — a cache hit. -/
def c2SecondCall : EngineState × Except String JSVal :=
  executeAlgorithm cfgDefault registryFragment c2FirstCall.1
    "cryptography.isPrime" [JSVal.num 5] optsDefault 5 3
/-- A concrete state holding one fresh cache entry, used to witness the C2
amended theorem. -/
def c2WitnessState : EngineState :=
  { initialState with
      cache :=
        [(generateCacheKey "histograms.equalize" [],
          { result := JSVal.num 7, timestamp := 0, expires := 10 })] }
/-- C3 run: `cryptography.modularInverse(2, 4)` throws (gcd 2 ≠ 1) on a path
that has never executed successfully. -/
def c3FailingCall : EngineState × Except String JSVal :=
  executeAlgorithm cfgDefault registryFragment initialState
    "cryptography.modularInverse" [JSVal.num 2, JSVal.num 4] optsDefault 0 1
/-- A concrete state whose metrics already hold a statistics record for
`cryptography.modularInverse`, used to witness the C3 amended theorem. -/
def c3WitnessState : EngineState :=
  { initialState with
      metrics :=
        { initialState.metrics with
            algorithmStats :=
              [("cryptography.modularInverse",
                { executions := 1, totalTime := 5, averageTime := 5, errors := 0 })] } }
/-- C5 run: one successful execution with `skipCache`, so `totalExecutions = 1`
while no cache check ever happened. -/
def c5SkipCacheCall : EngineState × Except String JSVal :=
  executeAlgorithm cfgDefault registryFragment initialState
    "cryptography.isPrime" [JSVal.num 7] { optsDefault with skipCache := true } 0 2
/-- A concrete metrics state used to witness the C5 amended theorem. -/
def c5WitnessState : EngineState :=
  { initialState with
      metrics :=
        { initialState.metrics with
            totalExecutions := 2, cacheHits := 1, cacheMisses := 1 } }
/-- An engine configuration with `maxCacheSize = 1`. -/
def cfgMaxOne : EngineConfig := { maxCacheSize := 1 }
/-- A sample history record for the C8 witness. -/
def c8Record : HistoryRecord :=
  { algorithm := "histograms.expand", params := 3, executionTime := 1
    timestamp := 0, success := true }
/-- The states reachable through the public operations of one engine
instance, starting from initialisation. -/
inductive Reachable (cfg : EngineConfig) (reg : Registry) : EngineState → Prop where
  | init : Reachable cfg reg initialState
  | exec (st : EngineState) (path : String) (params : List JSVal)
      (opts : ExecOptions) (now : ℤ) (dur : ℚ) : Reachable cfg reg st →
      Reachable cfg reg (executeAlgorithm cfg reg st path params opts now dur).1
  | snapshot (st : EngineState) (now : ℤ) : Reachable cfg reg st →
      Reachable cfg reg (getMetrics st now).1
  | cacheCleared (st : EngineState) : Reachable cfg reg st →
      Reachable cfg reg (clearCache st)
  | metricsReset (st : EngineState) : Reachable cfg reg st →
      Reachable cfg reg (resetMetrics st)

/-!
Helper lemmas about the association-list operations, the engine phases, and
the reachable-state invariant.
-/
theorem jsGet_jsSet_self {α : Type} (c : List (String × α)) (k : String) (v : α) :
    jsGet (jsSet c k v) k = some v := by
  induction c with
  | nil => simp [jsSet, jsGet]
  | cons p rest ih =>
      by_cases h : p.1 = k
      · simp [jsSet, jsGet, h]
      · simp [jsSet, jsGet, h, ih]
theorem length_jsSet_le {α : Type} (c : List (String × α)) (k : String) (v : α) :
    (jsSet c k v).length ≤ c.length + 1 := by
  induction c with
  | nil => simp [jsSet]
  | cons p rest ih =>
      by_cases h : p.1 = k
      · simp [jsSet, h]
      · simp only [jsSet, if_neg h, List.length_cons]
        omega
theorem map_fst_jsSet {α : Type} (c : List (String × α)) (k : String) (v : α) :
    (jsSet c k v).map Prod.fst =
      if k ∈ c.map Prod.fst then c.map Prod.fst else c.map Prod.fst ++ [k] := by
  induction c with
  | nil => simp [jsSet]
  | cons p rest ih =>
      by_cases h : p.1 = k
      · simp [jsSet, h]
      · have hne : ¬ k = p.1 := fun hh => h hh.symm
        by_cases hm : k ∈ rest.map Prod.fst <;>
          simp [jsSet, h, ih, hm, hne]
theorem length_jsDelete_of_mem {α : Type} (c : List (String × α)) (k : String)
    (h : k ∈ c.map Prod.fst) : (jsDelete c k).length + 1 = c.length := by
  induction c with
  | nil => simp at h
  | cons p rest ih =>
      by_cases hp : p.1 = k
      · simp [jsDelete, hp]
      · have hmem : k ∈ rest.map Prod.fst := by
          rcases (List.mem_map.mp h) with ⟨e, he, hk⟩
          rcases List.mem_cons.mp he with h1 | h1
          · exact absurd (h1 ▸ hk) hp
          · exact List.mem_map.mpr ⟨e, h1, hk⟩
        have h2 := ih hmem
        simp only [jsDelete, if_neg hp, List.length_cons]
        omega
theorem mem_map_fst_jsDelete {α : Type} (c : List (String × α)) (k k' : String)
    (h : k' ∈ c.map Prod.fst) (hne : k' ≠ k) : k' ∈ (jsDelete c k).map Prod.fst := by
  induction c with
  | nil => simp at h
  | cons p rest ih =>
      simp only [jsDelete]
      by_cases hp : p.1 = k
      · rw [if_pos hp]
        rcases List.mem_map.mp h with ⟨e, he, hk⟩
        rcases List.mem_cons.mp he with h1 | h1
        · exact absurd (by rw [← hk, h1, hp]) hne
        · exact List.mem_map.mpr ⟨e, h1, hk⟩
      · rw [if_neg hp]
        rcases List.mem_map.mp h with ⟨e, he, hk⟩
        rcases List.mem_cons.mp he with h1 | h1
        · subst h1
          simp [hk]
        · have hm2 := ih (List.mem_map.mpr ⟨e, h1, hk⟩)
          simp [hm2]
theorem map_fst_jsDelete_sublist {α : Type} (c : List (String × α)) (k : String) :
    ((jsDelete c k).map Prod.fst).Sublist (c.map Prod.fst) := by
  induction c with
  | nil => simp [jsDelete]
  | cons p rest ih =>
      by_cases hp : p.1 = k
      · simp only [jsDelete, if_pos hp, List.map_cons]
        exact (List.sublist_cons_self _ _)
      · simp only [jsDelete, if_neg hp, List.map_cons]
        exact ih.cons₂ _
theorem nodup_map_fst_jsDelete {α : Type} (c : List (String × α)) (k : String)
    (h : (c.map Prod.fst).Nodup) : ((jsDelete c k).map Prod.fst).Nodup :=
  h.sublist (map_fst_jsDelete_sublist c k)
theorem updateMetrics_fromCache (cfg : EngineConfig) (m : Metrics) (p : String)
    (t : ℚ) : updateMetrics cfg m p t true = m := by
  unfold updateMetrics
  cases cfg.enableMetrics <;> simp
theorem updateMetrics_cacheHits (cfg : EngineConfig) (m : Metrics) (p : String)
    (t : ℚ) (fc : Bool) : (updateMetrics cfg m p t fc).cacheHits = m.cacheHits := by
  unfold updateMetrics
  cases cfg.enableMetrics <;> cases fc <;> simp
theorem updateMetrics_cacheMisses (cfg : EngineConfig) (m : Metrics) (p : String)
    (t : ℚ) (fc : Bool) : (updateMetrics cfg m p t fc).cacheMisses = m.cacheMisses := by
  unfold updateMetrics
  cases cfg.enableMetrics <;> cases fc <;> simp
theorem updateMetrics_totalExecutions (cfg : EngineConfig) (m : Metrics)
    (p : String) (t : ℚ) (hm : cfg.enableMetrics = true) :
    (updateMetrics cfg m p t false).totalExecutions = m.totalExecutions + 1 := by
  unfold updateMetrics
  simp [hm]
theorem insertByTimestamp_perm (e : String × CacheEntry) (l : CacheMap) :
    (insertByTimestamp e l).Perm (e :: l) := by
  induction l with
  | nil => simp [insertByTimestamp]
  | cons x xs ih =>
      unfold insertByTimestamp
      by_cases h : x.2.timestamp ≤ e.2.timestamp
      · rw [if_pos h]
        exact (ih.cons x).trans (List.Perm.swap e x xs)
      · rw [if_neg h]
theorem sortByTimestamp_perm (c : CacheMap) : (sortByTimestamp c).Perm c := by
  induction c with
  | nil => simp [sortByTimestamp]
  | cons x xs ih =>
      exact (insertByTimestamp_perm x (sortByTimestamp xs)).trans (ih.cons x)
theorem foldl_jsDelete_nodup :
    ∀ (es : List (String × CacheEntry)) (c : CacheMap),
      ((c.map Prod.fst).Nodup) →
      (((es.foldl (fun c e => jsDelete c e.1) c).map Prod.fst).Nodup) := by
  intro es
  induction es with
  | nil => intro c hc; simpa using hc
  | cons e es ih =>
      intro c hc
      exact ih (jsDelete c e.1) (nodup_map_fst_jsDelete c e.1 hc)
theorem foldl_jsDelete_length :
    ∀ (es : List (String × CacheEntry)) (c : CacheMap),
      ((es.map Prod.fst).Nodup) →
      (∀ e ∈ es, e.1 ∈ c.map Prod.fst) →
      (es.foldl (fun c e => jsDelete c e.1) c).length + es.length = c.length := by
  intro es
  induction es with
  | nil => intro c _ _; simp
  | cons e es ih =>
      intro c hnd hmem
      have hhead : e.1 ∈ c.map Prod.fst := hmem e (List.mem_cons_self e es)
      have hnd' : (es.map Prod.fst).Nodup := by
        simpa using hnd.of_cons
      have hne : ∀ e' ∈ es, e'.1 ≠ e.1 := by
        intro e' he' hEq
        have : e.1 ∈ es.map Prod.fst := hEq ▸ List.mem_map.mpr ⟨e', he', rfl⟩
        exact (List.nodup_cons.mp (by simpa using hnd)).1 this
      have hmem' : ∀ e' ∈ es, e'.1 ∈ (jsDelete c e.1).map Prod.fst := by
        intro e' he'
        exact mem_map_fst_jsDelete c e.1 e'.1 (hmem e' (List.mem_cons_of_mem _ he'))
          (hne e' he')
      have hlen := length_jsDelete_of_mem c e.1 hhead
      have := ih (jsDelete c e.1) hnd' hmem'
      simp only [List.foldl_cons, List.length_cons]
      omega
theorem nodup_map_fst_jsSet {α : Type} (c : List (String × α)) (k : String)
    (v : α) (h : (c.map Prod.fst).Nodup) : ((jsSet c k v).map Prod.fst).Nodup := by
  rw [map_fst_jsSet]
  by_cases hm : k ∈ c.map Prod.fst
  · simpa [hm] using h
  · rw [if_neg hm]
    refine List.nodup_append.mpr ⟨h, List.nodup_singleton k, ?_⟩
    intro a ha hak
    rcases List.mem_singleton.mp hak with rfl
    exact hm ha
theorem setCachedResult_step (cfg : EngineConfig) (h4 : 4 ≤ cfg.maxCacheSize)
    (c : CacheMap) (k : String) (v : JSVal) (now : ℤ)
    (hn : (c.map Prod.fst).Nodup) (hl : c.length ≤ cfg.maxCacheSize) :
    ((setCachedResult cfg c k v now).map Prod.fst).Nodup ∧
      (setCachedResult cfg c k v now).length ≤ cfg.maxCacheSize := by
  unfold setCachedResult
  cases hc : cfg.enableCache with
  | false => simpa [hc] using ⟨hn, hl⟩
  | true =>
      simp only [hc, Bool.not_true, Bool.false_eq_true, if_false]
      by_cases hfull : cfg.maxCacheSize ≤ c.length
      · have hceq : c.length = cfg.maxCacheSize := le_antisymm hl hfull
        rw [if_pos hfull]
        have hperm := sortByTimestamp_perm c
        have hpermKeys : ((sortByTimestamp c).map Prod.fst).Perm (c.map Prod.fst) :=
          hperm.map Prod.fst
        have hsortNodup : ((sortByTimestamp c).map Prod.fst).Nodup :=
          hpermKeys.nodup_iff.mpr hn
        have hlen_sort : (sortByTimestamp c).length = c.length := hperm.length_eq
        have hcount1 : 1 ≤ evictionCount cfg.maxCacheSize := by
          have h10 : (0 : ℕ) < 10 := by norm_num
          rw [evictionCount, Nat.le_div_iff_mul_le h10]
          omega
        have hcountlt : evictionCount cfg.maxCacheSize < cfg.maxCacheSize := by
          have h10 : (0 : ℕ) < 10 := by norm_num
          rw [evictionCount, Nat.div_lt_iff_lt_mul h10]
          have : 0 < cfg.maxCacheSize := by omega
          omega
        have htakeKeys :
            (((sortByTimestamp c).take (evictionCount cfg.maxCacheSize)).map
              Prod.fst).Nodup := by
          rw [List.map_take]
          exact hsortNodup.sublist (List.take_sublist _ _)
        have htakeMem :
            ∀ e ∈ (sortByTimestamp c).take (evictionCount cfg.maxCacheSize),
              e.1 ∈ c.map Prod.fst := by
          intro e he
          have he1 : e ∈ sortByTimestamp c := List.mem_of_mem_take he
          exact List.mem_map.mpr ⟨e, hperm.subset he1, rfl⟩
        have htakeLen :
            ((sortByTimestamp c).take (evictionCount cfg.maxCacheSize)).length =
              evictionCount cfg.maxCacheSize := by
          rw [List.length_take, hlen_sort, hceq]
          omega
        have hfold := foldl_jsDelete_length
          ((sortByTimestamp c).take (evictionCount cfg.maxCacheSize)) c
          htakeKeys htakeMem
        have hfoldNodup := foldl_jsDelete_nodup
          ((sortByTimestamp c).take (evictionCount cfg.maxCacheSize)) c hn
        constructor
        · exact nodup_map_fst_jsSet _ k _ hfoldNodup
        · have hsetlen := length_jsSet_le
            (((sortByTimestamp c).take (evictionCount cfg.maxCacheSize)).foldl
              (fun c e => jsDelete c e.1) c) k
            { result := v, timestamp := now, expires := now + cfg.cacheTTL }
          rw [htakeLen] at hfold
          omega
      · rw [if_neg hfull]
        constructor
        · exact nodup_map_fst_jsSet _ k _ hn
        · have hsetlen := length_jsSet_le c k
            { result := v, timestamp := now, expires := now + cfg.cacheTTL }
          omega
theorem executeAlgorithm_hit (cfg : EngineConfig) (reg : Registry)
    (st : EngineState) (path : String) (params : List JSVal)
    (opts : ExecOptions) (now : ℤ) (dur : ℚ) (entry : CacheEntry)
    (hskip : opts.skipCache = false) (hc : cfg.enableCache = true)
    (hget : jsGet st.cache (generateCacheKey path params) = some entry)
    (hfresh : now < entry.expires) (htruthy : entry.result.truthy = true) :
    executeAlgorithm cfg reg st path params opts now dur =
      ({ st with
          isLoading := false
          errorMsg := none
          metrics := { st.metrics with cacheHits := st.metrics.cacheHits + 1 }
          lastResult := some entry.result },
       .ok entry.result) := by
  unfold executeAlgorithm
  rw [hskip]
  simp only [Bool.false_eq_true, if_false, getCachedResult, hc, Bool.not_true]
  rw [hget]
  simp only [if_pos hfresh, htruthy, if_true, updateMetrics_fromCache]
theorem executeAlgorithm_miss (cfg : EngineConfig) (reg : Registry)
    (st : EngineState) (path : String) (params : List JSVal)
    (opts : ExecOptions) (now : ℤ) (dur : ℚ)
    (hskip : opts.skipCache = false) (hc : cfg.enableCache = true)
    (hget : jsGet st.cache (generateCacheKey path params) = none) :
    executeAlgorithm cfg reg st path params opts now dur =
      invokePhase cfg reg
        { st with
            isLoading := true
            errorMsg := none
            metrics := { st.metrics with cacheMisses := st.metrics.cacheMisses + 1 } }
        path params opts now dur (generateCacheKey path params) := by
  unfold executeAlgorithm
  rw [hskip]
  simp only [Bool.false_eq_true, if_false, getCachedResult, hc, Bool.not_true]
  rw [hget]
theorem executeAlgorithm_noCache (cfg : EngineConfig) (reg : Registry)
    (st : EngineState) (path : String) (params : List JSVal)
    (opts : ExecOptions) (now : ℤ) (dur : ℚ)
    (hskip : opts.skipCache = false) (hc : cfg.enableCache = false) :
    executeAlgorithm cfg reg st path params opts now dur =
      invokePhase cfg reg { st with isLoading := true, errorMsg := none }
        path params opts now dur (generateCacheKey path params) := by
  unfold executeAlgorithm
  rw [hskip]
  simp only [Bool.false_eq_true, if_false, getCachedResult, hc, Bool.not_false,
    if_true]
theorem invokePhase_resolveFail (cfg : EngineConfig) (reg : Registry)
    (st : EngineState) (path : String) (params : List JSVal)
    (opts : ExecOptions) (now : ℤ) (dur : ℚ) (key : String)
    (hres : resolveAlgorithm reg path = none) :
    invokePhase cfg reg st path params opts now dur key =
      failExit cfg st path params.length dur now (lookupFailureMessage reg path) := by
  unfold invokePhase
  rw [hres]
theorem invokePhase_throw (cfg : EngineConfig) (reg : Registry)
    (st : EngineState) (path : String) (params : List JSVal)
    (opts : ExecOptions) (now : ℤ) (dur : ℚ) (key : String) (f : AlgFun)
    (msg : String) (hres : resolveAlgorithm reg path = some f)
    (hf : f params = .error msg) :
    invokePhase cfg reg st path params opts now dur key =
      failExit cfg st path params.length dur now msg := by
  unfold invokePhase
  rw [hres]
  simp only [hf]
theorem invokePhase_ok (cfg : EngineConfig) (reg : Registry)
    (st : EngineState) (path : String) (params : List JSVal)
    (opts : ExecOptions) (now : ℤ) (dur : ℚ) (key : String) (f : AlgFun)
    (r : JSVal) (hres : resolveAlgorithm reg path = some f)
    (hf : f params = .ok r) (htr : opts.transform = none) :
    invokePhase cfg reg st path params opts now dur key =
      ({ st with
          cache := setCachedResult cfg st.cache key r now
          metrics := updateMetrics cfg st.metrics path dur false
          history :=
            historyAppendJS st.history
              { algorithm := path, params := params.length
                executionTime := dur, timestamp := now
                success := true, error := none }
          lastResult := some r
          isLoading := false },
       .ok r) := by
  unfold invokePhase
  rw [hres]
  simp only [hf, htr]
theorem failExit_stats_none (cfg : EngineConfig) (st : EngineState)
    (path : String) (n : ℕ) (dur : ℚ) (now : ℤ) (msg : String)
    (h : jsGet st.metrics.algorithmStats path = none) :
    failExit cfg st path n dur now msg =
      ({ st with
          history :=
            historyAppendJS st.history
              { algorithm := path, params := n, executionTime := dur
                timestamp := now, success := false, error := some msg }
          errorMsg := some msg
          isLoading := false },
       .error msg) := by
  unfold failExit
  cases hm : cfg.enableMetrics <;> simp [hm, h]
theorem failExit_stats_some (cfg : EngineConfig) (st : EngineState)
    (path : String) (n : ℕ) (dur : ℚ) (now : ℤ) (msg : String) (s : AlgStats)
    (hm : cfg.enableMetrics = true)
    (h : jsGet st.metrics.algorithmStats path = some s) :
    failExit cfg st path n dur now msg =
      ({ st with
          metrics :=
            { st.metrics with
                algorithmStats :=
                  jsSet st.metrics.algorithmStats path
                    { s with errors := s.errors + 1 } }
          history :=
            historyAppendJS st.history
              { algorithm := path, params := n, executionTime := dur
                timestamp := now, success := false, error := some msg }
          errorMsg := some msg
          isLoading := false },
       .error msg) := by
  unfold failExit
  simp [hm, h]
theorem jsGet_setCachedResult_self (cfg : EngineConfig) (c : CacheMap)
    (k : String) (v : JSVal) (now : ℤ) (hc : cfg.enableCache = true) :
    jsGet (setCachedResult cfg c k v now) k =
      some { result := v, timestamp := now, expires := now + cfg.cacheTTL } := by
  unfold setCachedResult
  simp only [hc, Bool.not_true, Bool.false_eq_true, if_false]
  exact jsGet_jsSet_self _ k _
theorem foldl_historyAppendJS (recs : List HistoryRecord) :
    recs.foldl historyAppendJS [] = recs.drop (recs.length - 20) := by
  induction recs using List.reverseRecOn with
  | nil => rfl
  | append_singleton l r ih =>
      rw [List.foldl_append]
      simp only [List.foldl_cons, List.foldl_nil]
      rw [ih]
      unfold historyAppendJS
      have hlen : (l.drop (l.length - 20)).length = l.length - (l.length - 20) :=
        List.length_drop _ _
      rw [List.drop_drop, hlen]
      rw [List.length_append, List.length_singleton]
      rw [List.drop_append_of_le_length (by omega)]
      congr 2
      omega
theorem updateMetrics_avg_identity (cfg : EngineConfig) (m : Metrics)
    (path : String) (d : ℚ) (hm : cfg.enableMetrics = true) :
    (updateMetrics cfg m path d false).averageExecutionTime *
        ((updateMetrics cfg m path d false).totalExecutions : ℚ) =
      m.averageExecutionTime * (m.totalExecutions : ℚ) + d := by
  unfold updateMetrics
  simp only [hm, Bool.not_true, Bool.false_eq_true, if_false]
  have hne : ((m.totalExecutions + 1 : ℕ) : ℚ) ≠ 0 := by
    exact_mod_cast Nat.succ_ne_zero m.totalExecutions
  rw [div_mul_cancel₀ _ hne]
  push_cast
  ring
theorem updateMetrics_foldl_invariant (cfg : EngineConfig)
    (hm : cfg.enableMetrics = true) (path : String) :
    ∀ (evs : List (ℚ × Bool)) (m : Metrics),
      ((evs.foldl (fun acc e => updateMetrics cfg acc path e.1 e.2) m).totalExecutions
          = m.totalExecutions + (evs.filter (fun e => !e.2)).length) ∧
      ((evs.foldl (fun acc e => updateMetrics cfg acc path e.1 e.2) m).averageExecutionTime
          * (((evs.foldl (fun acc e => updateMetrics cfg acc path e.1 e.2) m).totalExecutions : ℕ) : ℚ)
        = m.averageExecutionTime * (m.totalExecutions : ℚ)
          + (((evs.filter (fun e => !e.2)).map Prod.fst).sum)) ∧
      ((evs.filter (fun e => !e.2)).length = 0 →
        evs.foldl (fun acc e => updateMetrics cfg acc path e.1 e.2) m = m) := by
  intro evs
  induction evs with
  | nil => intro m; simp
  | cons e evs ih =>
      intro m
      rcases e with ⟨d, fc⟩
      cases fc with
      | true =>
          simp only [List.foldl_cons, updateMetrics_fromCache, List.filter_cons,
            Bool.not_true, Bool.false_eq_true, if_false]
          exact ih m
      | false =>
          have htot := updateMetrics_totalExecutions cfg m path d hm
          have havg := updateMetrics_avg_identity cfg m path d hm
          have ih1 := ih (updateMetrics cfg m path d false)
          simp only [List.foldl_cons, List.filter_cons, Bool.not_false, if_true,
            List.length_cons, List.map_cons, List.sum_cons]
          refine ⟨?_, ?_, ?_⟩
          · rw [ih1.1, htot]
            omega
          · rw [ih1.2.1, havg]
            ring
          · intro h
            omega
theorem failExit_counters (cfg : EngineConfig) (st : EngineState)
    (path : String) (n : ℕ) (dur : ℚ) (now : ℤ) (msg : String) :
    (failExit cfg st path n dur now msg).1.metrics.cacheMisses =
        st.metrics.cacheMisses ∧
    (failExit cfg st path n dur now msg).1.metrics.cacheHits =
        st.metrics.cacheHits ∧
    (failExit cfg st path n dur now msg).2 = .error msg := by
  unfold failExit
  cases hmx : cfg.enableMetrics
  · simp
  · cases hg : jsGet st.metrics.algorithmStats path <;> simp [hg]
theorem setCachedResult_foldl_invariant (cfg : EngineConfig)
    (h4 : 4 ≤ cfg.maxCacheSize) :
    ∀ (ops : List (String × JSVal × ℤ)) (c : CacheMap),
      (c.map Prod.fst).Nodup → c.length ≤ cfg.maxCacheSize →
      ((ops.foldl (fun c op => setCachedResult cfg c op.1 op.2.1 op.2.2) c).map
          Prod.fst).Nodup ∧
      (ops.foldl (fun c op => setCachedResult cfg c op.1 op.2.1 op.2.2) c).length ≤
        cfg.maxCacheSize := by
  intro ops
  induction ops with
  | nil => intro c h1 h2; exact ⟨h1, h2⟩
  | cons op ops ih =>
      intro c h1 h2
      have step := setCachedResult_step cfg h4 c op.1 op.2.1 op.2.2 h1 h2
      simpa using ih _ step.1 step.2
theorem jsGet_jsSet_ne {α : Type} (c : List (String × α)) (k k' : String)
    (v : α) (h : k ≠ k') : jsGet (jsSet c k' v) k = jsGet c k := by
  have h' : ¬ k' = k := fun hh => h hh.symm
  induction c with
  | nil => simp [jsSet, jsGet, h']
  | cons p rest ih =>
      by_cases hp : p.1 = k'
      · simp [jsSet, jsGet, hp, h']
      · by_cases hpk : p.1 = k
        · simp [jsSet, jsGet, hp, hpk, h, h']
        · simp [jsSet, jsGet, hp, hpk, ih]
theorem failExit_stats_get_none (cfg : EngineConfig) (st : EngineState)
    (path : String) (n : ℕ) (dur : ℚ) (now : ℤ) (msg : String) (p : String)
    (hp : jsGet st.metrics.algorithmStats p = none) :
    jsGet (failExit cfg st path n dur now msg).1.metrics.algorithmStats p = none := by
  unfold failExit
  cases hmx : cfg.enableMetrics
  · simpa using hp
  · cases hg : jsGet st.metrics.algorithmStats path with
    | none => simpa [hg] using hp
    | some s =>
        have hne : p ≠ path := by
          intro hEq
          rw [hEq, hg] at hp
          exact Option.noConfusion hp
        simpa [hg] using (jsGet_jsSet_ne _ p path _ hne).trans hp
theorem getCachedResult_stats (cfg : EngineConfig) (cache : CacheMap)
    (metrics : Metrics) (key : String) (now : ℤ) :
    (getCachedResult cfg cache metrics key now).2.1.algorithmStats =
      metrics.algorithmStats := by
  unfold getCachedResult
  cases cfg.enableCache
  · simp
  · simp only [Bool.not_true, Bool.false_eq_true, if_false]
    cases jsGet cache key with
    | none => simp
    | some entry =>
        by_cases h : now < entry.expires <;> simp [h]
theorem updateMetrics_stats_get_none (cfg : EngineConfig) (m : Metrics)
    (path : String) (d : ℚ) (fc : Bool) (p : String)
    (hp : jsGet m.algorithmStats p = none) (hne : p ≠ path) :
    jsGet (updateMetrics cfg m path d fc).algorithmStats p = none := by
  unfold updateMetrics
  cases cfg.enableMetrics
  · simpa using hp
  · cases fc
    · simpa using (jsGet_jsSet_ne _ p path _ hne).trans hp
    · simpa using hp
theorem invokePhase_success_metrics (cfg : EngineConfig) (reg : Registry)
    (st : EngineState) (path : String) (params : List JSVal)
    (opts : ExecOptions) (now : ℤ) (dur : ℚ) (key : String) (f : AlgFun)
    (r : JSVal) (hres : resolveAlgorithm reg path = some f)
    (hf : f params = .ok r) :
    (invokePhase cfg reg st path params opts now dur key).1.metrics =
      updateMetrics cfg st.metrics path dur false := by
  unfold invokePhase
  rw [hres]
  simp only [hf]
theorem invokePhase_stats_get_none (cfg : EngineConfig) (reg : Registry)
    (st : EngineState) (path : String) (params : List JSVal)
    (opts : ExecOptions) (now : ℤ) (dur : ℚ) (key : String) (p : String)
    (hp : jsGet st.metrics.algorithmStats p = none)
    (hpres : resolveAlgorithm reg p = none) :
    jsGet (invokePhase cfg reg st path params opts now dur key).1.metrics.algorithmStats
      p = none := by
  cases hres : resolveAlgorithm reg path with
  | none =>
      rw [invokePhase_resolveFail cfg reg st path params opts now dur key hres]
      exact failExit_stats_get_none cfg st path params.length dur now _ p hp
  | some f =>
      have hne : p ≠ path := by
        intro hEq
        rw [hEq, hres] at hpres
        exact Option.noConfusion hpres
      cases hf : f params with
      | error msg =>
          rw [invokePhase_throw cfg reg st path params opts now dur key f msg
            hres hf]
          exact failExit_stats_get_none cfg st path params.length dur now msg p hp
      | ok r =>
          rw [invokePhase_success_metrics cfg reg st path params opts now dur key
            f r hres hf]
          exact updateMetrics_stats_get_none cfg st.metrics path dur false p hp hne
theorem executeAlgorithm_stats_get_none (cfg : EngineConfig) (reg : Registry)
    (st : EngineState) (path : String) (params : List JSVal)
    (opts : ExecOptions) (now : ℤ) (dur : ℚ) (p : String)
    (hp : jsGet st.metrics.algorithmStats p = none)
    (hpres : resolveAlgorithm reg p = none) :
    jsGet (executeAlgorithm cfg reg st path params opts now dur).1.metrics.algorithmStats
      p = none := by
  unfold executeAlgorithm
  cases hsk : opts.skipCache
  · simp only [Bool.false_eq_true, if_false]
    have hstats := getCachedResult_stats cfg st.cache st.metrics
      (generateCacheKey path params) now
    rcases hG : getCachedResult cfg
      ({ st with isLoading := true, errorMsg := none } : EngineState).cache
      ({ st with isLoading := true, errorMsg := none } : EngineState).metrics
      (generateCacheKey path params) now with ⟨c1, m1, o⟩
    rw [hG] at hstats
    dsimp only at hstats
    dsimp only
    cases o with
    | none =>
        exact invokePhase_stats_get_none cfg reg _ path params opts now dur _ p
          (by rw [hstats]; exact hp) hpres
    | some v =>
        by_cases ht : v.truthy = true
        · simp only [ht, if_true]
          simp only [updateMetrics_fromCache]
          rw [hstats]
          exact hp
        · simp only [ht, Bool.false_eq_true, if_false]
          exact invokePhase_stats_get_none cfg reg _ path params opts now dur _ p
            (by rw [hstats]; exact hp) hpres
  · simp only [if_true]
    exact invokePhase_stats_get_none cfg reg _ path params opts now dur _ p
      (by simpa using hp) hpres
/-- In every reachable state, a path that does not resolve in the registry has
no per-algorithm statistics record: statistics records are only created by a
successful execution, which requires resolution.  This justifies the
statistics hypothesis of the C4 theorem for every state an engine can be in. -/
theorem reachable_stats_resolvable (cfg : EngineConfig) (reg : Registry)
    (st : EngineState) (h : Reachable cfg reg st) (p : String)
    (hpres : resolveAlgorithm reg p = none) :
    jsGet st.metrics.algorithmStats p = none := by
  induction h with
  | init => rfl
  | exec st path params opts now dur _ ih =>
      exact executeAlgorithm_stats_get_none cfg reg st path params opts now dur p
        ih hpres
  | snapshot st now _ ih => simpa [getMetrics] using ih
  | cacheCleared st _ ih => simpa [clearCache] using ih
  | metricsReset st _ ih => simp [resetMetrics, jsGet]

/-!
Claim theorems, with their counterexamples and witnesses.
-/
/-- C1 (amended): with the default configuration and default call options, for
a fixed path and deep-equal params, if the first `execute` call misses the
cache and the resolved algorithm returns a TRUTHY value `r`, then the first
call returns `r` and invokes the algorithm (one execution is recorded), and a
second sequential call within the TTL window returns the same value `r` from
the cache, records a cache hit and no miss, and does not invoke the algorithm
again (`totalExecutions` is unchanged).  The truthiness proviso is forced by
the `if (cachedResult)` test in the source: a cached falsy value is re-executed
(see the counterexample). -/
theorem spec_c1_cache_idempotence
    (reg : Registry) (st0 : EngineState) (path : String) (params : List JSVal)
    (f : AlgFun) (r : JSVal) (now1 now2 : ℤ) (dur1 dur2 : ℚ)
    (hget : jsGet st0.cache (generateCacheKey path params) = none)
    (hres : resolveAlgorithm reg path = some f)
    (hf : f params = .ok r)
    (htruthy : r.truthy = true)
    (httl : now2 < now1 + cfgDefault.cacheTTL) :
    let p1 := executeAlgorithm cfgDefault reg st0 path params optsDefault now1 dur1
    let p2 := executeAlgorithm cfgDefault reg p1.1 path params optsDefault now2 dur2
    p1.2 = .ok r ∧ p2.2 = .ok r ∧
    p1.1.metrics.totalExecutions = st0.metrics.totalExecutions + 1 ∧
    p2.1.metrics.totalExecutions = p1.1.metrics.totalExecutions ∧
    p2.1.metrics.cacheHits = p1.1.metrics.cacheHits + 1 ∧
    p2.1.metrics.cacheMisses = p1.1.metrics.cacheMisses := by
  have hskip : optsDefault.skipCache = false := rfl
  have hcache : cfgDefault.enableCache = true := rfl
  have hmet : cfgDefault.enableMetrics = true := rfl
  have htr : optsDefault.transform = none := rfl
  have e1 := executeAlgorithm_miss cfgDefault reg st0 path params optsDefault
    now1 dur1 hskip hcache hget
  rw [invokePhase_ok cfgDefault reg _ path params optsDefault now1 dur1
    (generateCacheKey path params) f r hres hf htr] at e1
  have hcache1 :
      (executeAlgorithm cfgDefault reg st0 path params optsDefault now1 dur1).1.cache =
        setCachedResult cfgDefault st0.cache (generateCacheKey path params) r now1 := by
    rw [e1]
  have hget2 :
      jsGet (executeAlgorithm cfgDefault reg st0 path params optsDefault now1 dur1).1.cache
          (generateCacheKey path params) =
        some { result := r, timestamp := now1, expires := now1 + cfgDefault.cacheTTL } := by
    rw [hcache1]
    exact jsGet_setCachedResult_self cfgDefault st0.cache _ r now1 hcache
  have e3 := executeAlgorithm_hit cfgDefault reg
    (executeAlgorithm cfgDefault reg st0 path params optsDefault now1 dur1).1
    path params optsDefault now2 dur2
    { result := r, timestamp := now1, expires := now1 + cfgDefault.cacheTTL }
    hskip hcache hget2 httl htruthy
  refine ⟨?_, ?_, ?_, ?_, ?_, ?_⟩
  · rw [e1]
  · rw [e3]
  · rw [e1]
    exact updateMetrics_totalExecutions cfgDefault _ path dur1 hmet
  · rw [e3]
  · rw [e3]
  · rw [e3]
/-- C1 counterexample: two sequential `execute` calls on the REAL registry path
`cryptography.isPrime` with deep-equal params `[4]`, caching enabled, default
options, second call within the TTL window.  The cached result `false` is
falsy, so the `if (cachedResult)` test fails and the algorithm is invoked a
SECOND time (`totalExecutions = 2`, one execution recorded per actual
invocation) even though the lookup was counted as a cache hit
(`cacheHits = 1`) — refuting "invoke the underlying algorithm function at most
once". -/
theorem spec_c1_counterexample :
    c1FirstCall.2 = Except.ok (JSVal.bool false) ∧
    c1SecondCall.2 = Except.ok (JSVal.bool false) ∧
    c1SecondCall.1.metrics.totalExecutions = 2 ∧
    c1SecondCall.1.metrics.cacheHits = 1 ∧
    ((1 : ℤ) < 0 + cfgDefault.cacheTTL) :=
  ⟨rfl, rfl, rfl, rfl, by decide⟩
/-- C1 witness: the amended theorem applied to the concrete run
`cryptography.isPrime(5)` (truthy result `true`): the second call returns the
cached value. -/
theorem spec_c1_witness :
    (executeAlgorithm cfgDefault registryFragment
        (executeAlgorithm cfgDefault registryFragment initialState
          "cryptography.isPrime" [JSVal.num 5] optsDefault 0 1).1
        "cryptography.isPrime" [JSVal.num 5] optsDefault 1 1).2 =
      .ok (JSVal.bool true) :=
  (spec_c1_cache_idempotence registryFragment initialState
    "cryptography.isPrime" [JSVal.num 5] isPrimeMember (JSVal.bool true)
    0 1 1 1 rfl rfl rfl rfl (by decide)).2.1
/-- C2 (amended): with the default configuration and default options, an
`execute` call served from the cache (fresh entry whose value is truthy)
records a metrics hit and no miss, returns the cached value, does not invoke
the algorithm (`totalExecutions` and the per-algorithm statistics are
unchanged) — and appends NO history record: the execution history is unchanged
by a cache hit, contrary to the claimed `executionTimeMs=0` record. -/
theorem spec_c2_cache_hit_behaviour
    (reg : Registry) (st : EngineState) (path : String) (params : List JSVal)
    (now : ℤ) (dur : ℚ) (entry : CacheEntry)
    (hget : jsGet st.cache (generateCacheKey path params) = some entry)
    (hfresh : now < entry.expires) (htruthy : entry.result.truthy = true) :
    let p := executeAlgorithm cfgDefault reg st path params optsDefault now dur
    p.2 = .ok entry.result ∧
    p.1.history = st.history ∧
    p.1.metrics.cacheHits = st.metrics.cacheHits + 1 ∧
    p.1.metrics.cacheMisses = st.metrics.cacheMisses ∧
    p.1.metrics.totalExecutions = st.metrics.totalExecutions ∧
    p.1.metrics.algorithmStats = st.metrics.algorithmStats ∧
    p.1.cache = st.cache ∧
    p.1.lastResult = some entry.result := by
  have e := executeAlgorithm_hit cfgDefault reg st path params optsDefault
    now dur entry rfl rfl hget hfresh htruthy
  exact ⟨by rw [e], by rw [e], by rw [e], by rw [e], by rw [e], by rw [e],
    by rw [e], by rw [e]⟩
/-- C2 counterexample: the second call is served from the cache (hit counter
goes to 1, `totalExecutions` stays 1, the cached value is returned), yet the
history still holds only the single record of the first execution: no
`executionTimeMs=0, success=true` record is appended on a hit, refuting the
claim that a cache hit produces a history entry. -/
theorem spec_c2_counterexample :
    c2SecondCall.2 = Except.ok (JSVal.bool true) ∧
    c2SecondCall.1.metrics.cacheHits = 1 ∧
    c2SecondCall.1.metrics.totalExecutions = 1 ∧
    c2FirstCall.1.history.length = 1 ∧
    c2SecondCall.1.history.length = 1 ∧
    c2SecondCall.1.history = c2FirstCall.1.history :=
  ⟨rfl, rfl, rfl, rfl, rfl, rfl⟩
/-- C2 witness: the amended theorem applied at a concrete state with a fresh
truthy cache entry — the call returns the cached value. -/
theorem spec_c2_witness :
    (executeAlgorithm cfgDefault registryFragment c2WitnessState
        "histograms.equalize" [] optsDefault 3 1).2 = .ok (JSVal.num 7) :=
  (spec_c2_cache_hit_behaviour registryFragment c2WitnessState
    "histograms.equalize" [] 3 1
    { result := JSVal.num 7, timestamp := 0, expires := 10 }
    rfl (by decide) (by decide)).1
/-- C3 (amended): when the resolved algorithm throws `Error(msg)`, `execute`
re-raises exactly `msg` (unwrapped), stores it in the error state, and appends
a failure history record carrying `msg`; the per-algorithm error counter is
incremented by exactly 1 — but ONLY when a statistics record for the path
already exists (i.e. the path has completed at least one successful non-cached
execution before).  For a path that has never executed successfully the
counter is simply absent and is NOT created or incremented (see the
counterexample). -/
theorem spec_c3_error_passthrough
    (reg : Registry) (st : EngineState) (path : String) (params : List JSVal)
    (now : ℤ) (dur : ℚ) (f : AlgFun) (msg : String) (s : AlgStats)
    (hget : jsGet st.cache (generateCacheKey path params) = none)
    (hres : resolveAlgorithm reg path = some f)
    (hf : f params = .error msg)
    (hstats : jsGet st.metrics.algorithmStats path = some s) :
    let p := executeAlgorithm cfgDefault reg st path params optsDefault now dur
    p.2 = .error msg ∧
    jsGet p.1.metrics.algorithmStats path = some { s with errors := s.errors + 1 } ∧
    p.1.history =
      historyAppendJS st.history
        { algorithm := path, params := params.length, executionTime := dur
          timestamp := now, success := false, error := some msg } ∧
    p.1.errorMsg = some msg := by
  have e := executeAlgorithm_miss cfgDefault reg st path params optsDefault
    now dur rfl rfl hget
  rw [invokePhase_throw cfgDefault reg _ path params optsDefault now dur
    (generateCacheKey path params) f msg hres hf] at e
  rw [failExit_stats_some cfgDefault
    { st with
        isLoading := true
        errorMsg := none
        metrics := { st.metrics with cacheMisses := st.metrics.cacheMisses + 1 } }
    path params.length dur now msg s rfl hstats] at e
  refine ⟨by rw [e], ?_, by rw [e], by rw [e]⟩
  rw [e]
  exact jsGet_jsSet_self _ path _
/-- C3 counterexample: the REAL registry algorithm `cryptography.modularInverse`
throws `Error("No existe inverso modular de 2 módulo 4")` on a fresh engine;
the message is re-raised exactly and a failure record is appended, but the
per-algorithm error counter is NOT incremented (no statistics record exists
for the path, and the `catch` block only increments an existing one), refuting
"increments that path's error counter by exactly 1 ... including a path that
has never executed successfully before". -/
theorem spec_c3_counterexample :
    c3FailingCall.2 = Except.error "No existe inverso modular de 2 módulo 4" ∧
    jsGet c3FailingCall.1.metrics.algorithmStats "cryptography.modularInverse" = none ∧
    c3FailingCall.1.history.length = 1 :=
  ⟨rfl, rfl, rfl⟩
/-- C3 witness: the amended theorem applied at a state with an existing
statistics record — the thrown message is re-raised exactly. -/
theorem spec_c3_witness :
    (executeAlgorithm cfgDefault registryFragment c3WitnessState
        "cryptography.modularInverse" [JSVal.num 2, JSVal.num 4]
        optsDefault 7 1).2 =
      .error "No existe inverso modular de 2 módulo 4" :=
  (spec_c3_error_passthrough registryFragment c3WitnessState
    "cryptography.modularInverse" [JSVal.num 2, JSVal.num 4] 7 1
    modularInverseMember "No existe inverso modular de 2 módulo 4"
    { executions := 1, totalTime := 5, averageTime := 5, errors := 0 }
    rfl rfl rfl rfl).1
/-- C4 (confirmed): for any configuration and any reachable engine state, a
call whose path does not resolve in the registry fails with the
unknown-category / unknown-algorithm error, writes nothing to the cache (the
cache is unchanged), and increments no per-algorithm error counter (the
statistics map is unchanged; by `reachable_stats_resolvable` an unresolvable
path never has a statistics record to increment).  The remaining hypothesis
says the unresolvable path's key is not in the cache, which holds in every
real run: entries are cached only under keys generated from successfully
resolved paths, and keys embed the path. -/
theorem spec_c4_unknown_algorithm
    (cfg : EngineConfig) (reg : Registry) (st : EngineState) (path : String)
    (params : List JSVal) (now : ℤ) (dur : ℚ)
    (hreach : Reachable cfg reg st)
    (hres : resolveAlgorithm reg path = none)
    (hget : jsGet st.cache (generateCacheKey path params) = none) :
    let p := executeAlgorithm cfg reg st path params optsDefault now dur
    p.2 = .error (lookupFailureMessage reg path) ∧
    p.1.cache = st.cache ∧
    p.1.metrics.algorithmStats = st.metrics.algorithmStats := by
  have hstats : jsGet st.metrics.algorithmStats path = none :=
    reachable_stats_resolvable cfg reg st hreach path hres
  cases hc : cfg.enableCache
  · have e := executeAlgorithm_noCache cfg reg st path params optsDefault
      now dur rfl hc
    rw [invokePhase_resolveFail cfg reg _ path params optsDefault now dur
      (generateCacheKey path params) hres] at e
    rw [failExit_stats_none cfg { st with isLoading := true, errorMsg := none }
      path params.length dur now (lookupFailureMessage reg path) hstats] at e
    exact ⟨by rw [e], by rw [e], by rw [e]⟩
  · have e := executeAlgorithm_miss cfg reg st path params optsDefault
      now dur rfl hc hget
    rw [invokePhase_resolveFail cfg reg _ path params optsDefault now dur
      (generateCacheKey path params) hres] at e
    rw [failExit_stats_none cfg
      { st with
          isLoading := true
          errorMsg := none
          metrics := { st.metrics with cacheMisses := st.metrics.cacheMisses + 1 } }
      path params.length dur now (lookupFailureMessage reg path) hstats] at e
    exact ⟨by rw [e], by rw [e], by rw [e]⟩
/-- C4 witness: `execute("nonexistent.thing", [])` on a fresh default engine
fails with the unknown-category error. -/
theorem spec_c4_witness :
    (executeAlgorithm cfgDefault registryFragment initialState
        "nonexistent.thing" [] optsDefault 0 1).2 =
      .error (lookupFailureMessage registryFragment "nonexistent.thing") :=
  (spec_c4_unknown_algorithm cfgDefault registryFragment initialState
    "nonexistent.thing" [] 0 1 Reachable.init rfl rfl).1
/-- C10 (confirmed): with caching enabled and `skipCache` false, a call whose
path does not resolve still increments `cacheMisses` by 1 before the failure
is raised — the cache lookup happens before registry resolution, so a failed
lookup is counted as a miss even though no algorithm exists for the path; the
hit counter is untouched. -/
theorem spec_c10_unknown_path_counts_miss
    (cfg : EngineConfig) (reg : Registry) (st : EngineState) (path : String)
    (params : List JSVal) (now : ℤ) (dur : ℚ)
    (hc : cfg.enableCache = true)
    (hres : resolveAlgorithm reg path = none)
    (hget : jsGet st.cache (generateCacheKey path params) = none) :
    let p := executeAlgorithm cfg reg st path params optsDefault now dur
    p.1.metrics.cacheMisses = st.metrics.cacheMisses + 1 ∧
    p.1.metrics.cacheHits = st.metrics.cacheHits ∧
    p.2 = .error (lookupFailureMessage reg path) := by
  have e := executeAlgorithm_miss cfg reg st path params optsDefault
    now dur rfl hc hget
  rw [invokePhase_resolveFail cfg reg _ path params optsDefault now dur
    (generateCacheKey path params) hres] at e
  have hcnt := failExit_counters cfg
    { st with
        isLoading := true
        errorMsg := none
        metrics := { st.metrics with cacheMisses := st.metrics.cacheMisses + 1 } }
    path params.length dur now (lookupFailureMessage reg path)
  exact ⟨by rw [e]; exact hcnt.1, by rw [e]; exact hcnt.2.1,
    by rw [e]; exact hcnt.2.2⟩
/-- C10 witness: an unknown method of an existing category on a fresh default
engine — the miss counter is incremented before the failure. -/
theorem spec_c10_witness :
    (executeAlgorithm cfgDefault registryFragment initialState
        "cryptography.nonsense" [] optsDefault 0 1).1.metrics.cacheMisses =
      initialState.metrics.cacheMisses + 1 :=
  (spec_c10_unknown_path_counts_miss cfgDefault registryFragment initialState
    "cryptography.nonsense" [] 0 1 rfl rfl rfl).1
/-- C5 (amended): the hit-ratio guard of `getMetrics` tests `totalExecutions`,
not `cacheHits + cacheMisses`.  Consequently the snapshot's `cacheHitRatio` is
`hits / (hits + misses)` whenever `totalExecutions > 0` AND at least one cache
check has happened; it is `0` whenever `totalExecutions = 0` (regardless of
the counters); and it is the non-numeric `NaN` (modelled `none`) whenever
`totalExecutions > 0` but no cache check ever happened (`hits = misses = 0`,
e.g. after a `skipCache` execution) — contrary to the claimed never-NaN
division guard. -/
theorem spec_c5_hit_ratio (st : EngineState) (now : ℤ) :
    let view := (getMetrics st now).2
    (st.metrics.totalExecutions = 0 → view.cacheHitRatio = some 0) ∧
    (0 < st.metrics.totalExecutions →
      0 < st.metrics.cacheHits + st.metrics.cacheMisses →
      view.cacheHitRatio =
        some ((st.metrics.cacheHits : ℚ) /
          ((st.metrics.cacheHits + st.metrics.cacheMisses : ℕ) : ℚ))) ∧
    (0 < st.metrics.totalExecutions →
      st.metrics.cacheHits + st.metrics.cacheMisses = 0 →
      view.cacheHitRatio = none) := by
  refine ⟨?_, ?_, ?_⟩
  · intro h0
    simp [getMetrics, h0]
  · intro hpos hsum
    have hne : st.metrics.cacheHits + st.metrics.cacheMisses ≠ 0 := by omega
    simp [getMetrics, jsDivNat, hpos, hne]
  · intro hpos hsum
    simp [getMetrics, jsDivNat, hpos, hsum]
/-- C5 counterexample: a reachable metrics state with
`totalExecutions = 1, cacheHits = 0, cacheMisses = 0`, where the snapshot's
`cacheHitRatio` is the non-numeric `0/0` (`NaN`, modelled `none`) — refuting
both "equal to 0 exactly when both are 0" and "never producing a non-numeric
value". -/
theorem spec_c5_counterexample :
    c5SkipCacheCall.1.metrics.totalExecutions = 1 ∧
    c5SkipCacheCall.1.metrics.cacheHits = 0 ∧
    c5SkipCacheCall.1.metrics.cacheMisses = 0 ∧
    (getMetrics c5SkipCacheCall.1 1).2.cacheHitRatio = none :=
  ⟨rfl, rfl, rfl, rfl⟩
/-- C5 witness: the amended theorem applied at a state with
`totalExecutions = 2, hits = 1, misses = 1` gives the ratio `1 / 2`. -/
theorem spec_c5_witness :
    (getMetrics c5WitnessState 0).2.cacheHitRatio =
      some ((c5WitnessState.metrics.cacheHits : ℚ) /
        ((c5WitnessState.metrics.cacheHits +
          c5WitnessState.metrics.cacheMisses : ℕ) : ℚ)) :=
  (spec_c5_hit_ratio c5WitnessState 0).2.1 (by decide) (by decide)
/-- C6 (amended): provided `maxCacheSize ≥ 4` — so that the bulk-eviction
count `floor(maxCacheSize * 0.3)` is at least 1 — any sequence of `put`
operations starting from the empty store leaves at most `maxCacheSize`
entries after every single `put`: when the store is full the oldest 30% of
entries (by insertion timestamp) are evicted before inserting.  For
`maxCacheSize ≤ 3` the eviction count is 0 and the bound fails (see the
counterexample), so the unrestricted claim is false. -/
theorem spec_c6_eviction_bound (cfg : EngineConfig)
    (h4 : 4 ≤ cfg.maxCacheSize) (ops : List (String × JSVal × ℤ)) :
    (ops.foldl (fun c op => setCachedResult cfg c op.1 op.2.1 op.2.2)
      ([] : CacheMap)).length ≤ cfg.maxCacheSize :=
  (setCachedResult_foldl_invariant cfg h4 ops [] (by simp) (by simp)).2
/-- C6 counterexample: with `maxCacheSize = 1`, inserting two distinct keys
leaves the store holding 2 entries after the second `put` — the eviction
count `floor(1 * 0.3) = 0` evicts nothing, so the claimed bound fails for
this configuration. -/
theorem spec_c6_counterexample :
    cfgMaxOne.maxCacheSize = 1 ∧
    (setCachedResult cfgMaxOne
        (setCachedResult cfgMaxOne [] "k1" (JSVal.num 1) 0)
        "k2" (JSVal.num 2) 1).length = 2 :=
  ⟨rfl, rfl⟩
/-- C6 witness: the amended bound applied to the default configuration
(`maxCacheSize = 100`) and a concrete insertion sequence. -/
theorem spec_c6_witness :
    ([("a", JSVal.num 1, (0 : ℤ)), ("b", JSVal.num 2, 1)].foldl
      (fun c op => setCachedResult cfgDefault c op.1 op.2.1 op.2.2)
      ([] : CacheMap)).length ≤ cfgDefault.maxCacheSize :=
  spec_c6_eviction_bound cfgDefault (by decide)
    [("a", JSVal.num 1, 0), ("b", JSVal.num 2, 1)]
/-- C7 (confirmed): with metrics enabled, after any interleaving of recorded
events — non-cached successful executions `(d, false)` with durations `d` and
cache hits `(0, true)` — starting from a fresh metrics record,
`totalExecutions` equals the number of non-cached executions `N`, and
`averageExecutionTime` equals `(d1 + ... + dN) / N` exactly (over rational
arithmetic, via the incremental update `newAvg = (oldAvg*(n-1) + d)/n`),
independent of the order of events; cache-hit events change neither the count
nor the average (a pure-hit sequence leaves the metrics untouched). -/
theorem spec_c7_incremental_average (cfg : EngineConfig)
    (hm : cfg.enableMetrics = true) (path : String) (evs : List (ℚ × Bool)) :
    let m := evs.foldl (fun acc e => updateMetrics cfg acc path e.1 e.2)
      ({} : Metrics)
    let execs := evs.filter (fun e => !e.2)
    m.totalExecutions = execs.length ∧
    (execs.length ≠ 0 →
      m.averageExecutionTime = ((execs.map Prod.fst).sum) / (execs.length : ℚ)) ∧
    (execs.length = 0 → m.averageExecutionTime = 0) := by
  have inv := updateMetrics_foldl_invariant cfg hm path evs ({} : Metrics)
  refine ⟨?_, ?_, ?_⟩
  · simpa using inv.1
  · intro hne
    have hlen : (((evs.filter (fun e => !e.2)).length : ℕ) : ℚ) ≠ 0 := by
      exact_mod_cast hne
    rw [eq_div_iff hlen]
    have h2 := inv.2.1
    rw [inv.1] at h2
    simpa using h2
  · intro h0
    rw [inv.2.2 h0]
/-- C7 witness: the theorem applied to the default configuration and the
concrete event list `[(3, execution), (0, hit), (5, execution)]`. -/
theorem spec_c7_witness :
    ([((3 : ℚ), false), (0, true), (5, false)].foldl
        (fun acc e => updateMetrics cfgDefault acc "imageProcessing.median" e.1 e.2)
        ({} : Metrics)).totalExecutions =
      ([((3 : ℚ), false), (0, true), (5, false)].filter (fun e => !e.2)).length :=
  (spec_c7_incremental_average cfgDefault rfl "imageProcessing.median"
    [(3, false), (0, true), (5, false)]).1
/-- C8 (confirmed): the history update `[...prev.slice(-19), record]` applied
over any sequence of completed attempts keeps at most 20 records; after the
whole sequence the log holds exactly the most recent (up to) 20 records in
completion order (the suffix of the record sequence), and in particular after
25 completed attempts exactly records 6..25, the 5 oldest dropped silently. -/
theorem spec_c8_history_bound (recs : List HistoryRecord) :
    (recs.foldl historyAppendJS []).length ≤ 20 ∧
    recs.foldl historyAppendJS [] = recs.drop (recs.length - 20) ∧
    (recs.length = 25 → recs.foldl historyAppendJS [] = recs.drop 5) := by
  have h := foldl_historyAppendJS recs
  refine ⟨?_, h, ?_⟩
  · rw [h, List.length_drop]
    omega
  · intro h25
    rw [h, h25]
/-- C8 witness: the theorem applied to a concrete sequence of 25 records —
exactly the last 20 survive. -/
theorem spec_c8_witness :
    (List.replicate 25 c8Record).foldl historyAppendJS [] =
      (List.replicate 25 c8Record).drop 5 :=
  (spec_c8_history_bound (List.replicate 25 c8Record)).2.2 (by simp)
